

import Mathlib

/-!
Verification of `vortex/core/mapper.py` (`ResourceToDestinationMapper`).

Python dicts are modelled as insertion-ordered association lists
(`PyDict`), regex matching (`re.compile(key).match(name)`, which is
prefix-anchored) is abstracted as a boolean predicate `rmatch` on the
pattern string and the identity string, and the externally supplied
Resource capabilities (`evaluate_resource_requirements`, `combine`,
`evaluate_expressions`, `matches`, `rank_destinations`) are fields of a
`MapperCfg` record mirroring the mapper instance built from the loader.
Rule-table values are Resource objects, which are plain Python objects
and hence always truthy, so the source's truthiness tests on looked-up
values are modelled as `Option.isSome` tests.
-/

namespace Vortex

/-- A Python dict as an insertion-ordered association list. -/
abbrev PyDict (α : Type) := List (String × α)

/-- Python `d.get(k)`: the value of the (unique) entry with key `k`, if any. -/
def pyGet {α : Type} : PyDict α → String → Option α
  | [], _ => none
  | kv :: rest, k => if kv.1 = k then some kv.2 else pyGet rest k

/-- Python `d[k] = v`: overwrite the entry in place when the key is
present, append a new entry otherwise. -/
def pySet {α : Type} : PyDict α → String → α → PyDict α
  | [], k, v => [(k, v)]
  | kv :: rest, k, v =>
    if kv.1 = k then (k, v) :: rest else kv :: pySet rest k v

/-- Python `d.update(u)`: set every entry of `u` into `d`, in order. -/
def pyUpdate {α : Type} (d u : PyDict α) : PyDict α :=
  u.foldl (fun acc kv => pySet acc kv.1 kv.2) d

/-- Python `d.values()`, in insertion order. -/
def pyValues {α : Type} (d : PyDict α) : List α := d.map (fun kv => kv.2)

/-- A Galaxy tool: the workload entity; only its `id` is consulted. -/
structure Tool where
  id : String
  deriving DecidableEq

/-- A user role: a name and a deleted flag. -/
structure Role where
  name : String
  deleted : Bool
  deriving DecidableEq

/-- The submitting user: an email and `user.all_roles()` in order. -/
structure User where
  email : String
  roles : List Role
  deriving DecidableEq

/-- A resource rule: id, env-variable dict and optional params dict
(the fields of the Resource entity that `map_to_destination` reads
directly); its behavioural capabilities live in `MapperCfg`. -/
structure Resource (V : Type) where
  id : String
  env : PyDict V
  params : Option (PyDict V)
  deriving DecidableEq

/-- One entry of a destination's `env` list: `dict(name=.., value=..)`. -/
structure EnvEntry (V : Type) where
  name : String
  value : V
  deriving DecidableEq

/-- An execution destination: id, env list and params dict. -/
structure Destination (V : Type) where
  id : String
  env : List (EnvEntry V)
  params : PyDict V
  deriving DecidableEq

/-- The slice of the Galaxy `app` object the mapper uses:
`app.job_config.get_destination(id)`. -/
structure App (V : Type) where
  getDest : String → Destination V

/-- A value stored in the evaluation-context dict. -/
inductive CtxVal (V J : Type) where
  | vApp (a : App V)
  | vTool (t : Tool)
  | vUser (u : Option User)
  | vJob (j : J)
  | vMapper
  | vRes (r : Option (Resource V))

/-- The evaluation context: a Python dict of heterogeneous values. -/
abbrev Ctx (V J : Type) := PyDict (CtxVal V J)

/-- The mapper instance: the loader-supplied rule tables, destination
table and `default_inherits` setting, together with the abstracted
regex matcher and the Resource capability protocol. -/
structure MapperCfg (V J : Type) where
  tools : PyDict (Resource V)
  users : PyDict (Resource V)
  roles : PyDict (Resource V)
  destinations : PyDict (Destination V)
  default_inherits : Option String
  rmatch : String → String → Bool
  evalReq : Resource V → Ctx V J → Resource V
  combine : Resource V → Resource V → Resource V
  evalExpr : Resource V → Ctx V J → Resource V
  matchesb : Resource V → Destination V → Ctx V J → Bool
  rank : Resource V → List (Destination V) → Ctx V J → List (Destination V)

variable {V J : Type}

/-- The regex loop of `_find_resource_by_id_regex`: walk the table's
entries in order, compiling each key (`self.lookup_tool_regex(key)`)
and returning the value of the first key whose pattern matches; also
returns the list of keys that were compiled, in compilation order. -/
def regexScan (rmatch : String → String → Bool) (name : String) :
    List (String × Resource V) → Option (Resource V) × List String
  | [] => (none, [])
  | (k, r) :: rest =>
    if rmatch k name then (some r, [k])
    else
      let p := regexScan rmatch name rest
      (p.1, k :: p.2)

/-- The function `_find_resource_by_id_regex`, instrumented with the list of keys
whose patterns get compiled: exact `get` shortcut first (no
compilation), then the regex loop, then — when `default_inherits` is
set to a truthy (non-empty) string — a plain `get` of that fallback
key, else `None`. -/
def find_resource_by_id_regexT (M : MapperCfg V J) (tbl : PyDict (Resource V))
    (name : String) : Option (Resource V) × List String :=
  match pyGet tbl name with
  | some r => (some r, [])
  | none =>
    let p := regexScan M.rmatch name tbl
    match p.1 with
    | some r => (some r, p.2)
    | none =>
      match M.default_inherits with
      | some d => if d = "" then (none, p.2) else (pyGet tbl d, p.2)
      | none => (none, p.2)

/-- The result of `_find_resource_by_id_regex`: the resolved rule (or `None`). -/
def find_resource_by_id_regex (M : MapperCfg V J) (tbl : PyDict (Resource V))
    (name : String) : Option (Resource V) :=
  (find_resource_by_id_regexT M tbl name).1

/-- The keys a `_find_resource_by_id_regex` call compiles as patterns. -/
def find_resource_compiled_keys (M : MapperCfg V J) (tbl : PyDict (Resource V))
    (name : String) : List String :=
  (find_resource_by_id_regexT M tbl name).2

/-- Modelled from the spec's words (claim C1), for comparison with the
source-derived `find_resource_by_id_regex`: exact-key lookup first;
otherwise the rule of the first table key whose pattern matches the
identity; otherwise, when a (truthy) Default Fallback Key is
configured, an exact-key lookup of it; otherwise absent. -/
def patternIndexResolveSpec (M : MapperCfg V J) (tbl : PyDict (Resource V))
    (name : String) : Option (Resource V) :=
  match pyGet tbl name with
  | some r => some r
  | none =>
    match tbl.find? (fun kv => M.rmatch kv.1 name) with
    | some kv => some kv.2
    | none =>
      match M.default_inherits with
      | some d => if d = "" then none else pyGet tbl d
      | none => none

/-- The role part of `_find_matching_resources`: the generator chain
`(lookup(role.name) for role in user.all_roles() if not role.deleted)`
filtered to truthy results, and `next(.., None)`: the first non-deleted
role whose name resolves to a rule. -/
def first_role_resource (M : MapperCfg V J) (roles : List Role) :
    Option (Resource V) :=
  (roles.filter (fun ro => !ro.deleted)).findSome?
    (fun ro => find_resource_by_id_regex M M.roles ro.name)

/-- The function `_find_matching_resources(tool, user)`: the tool lookup result is
placed first unconditionally (`resource_list = [tool_resource]`, even
when it is `None`); then, when a user is present, the user-rule lookup
is appended if truthy, and the first non-deleted matching role rule is
appended if truthy. -/
def find_matching_resources (M : MapperCfg V J) (tool : Tool)
    (user : Option User) : List (Option (Resource V)) :=
  let tool_resource := find_resource_by_id_regex M M.tools tool.id
  let resource_list := [tool_resource]
  match user with
  | none => resource_list
  | some u =>
    let resource_list2 :=
      match find_resource_by_id_regex M M.users u.email with
      | some user_resource => resource_list ++ [some user_resource]
      | none => resource_list
    match first_role_resource M u.roles with
    | some user_role_resource => resource_list2 ++ [some user_role_resource]
    | none => resource_list2

/-- The function `combine_resources(resources)`: `resources[0]` folded left-to-right
through `combine` with the remaining elements; `None` models the
failure (`IndexError` on `resources[0]`) when the list is empty. -/
def combine_resources (M : MapperCfg V J) :
    List (Resource V) → Option (Resource V)
  | [] => none
  | r :: rest => some (rest.foldl M.combine r)

/-- The method `rank(resource, destinations, context)`: delegate to the resource's
`rank_destinations` capability. -/
def rank (M : MapperCfg V J) (resource : Resource V)
    (destinations : List (Destination V)) (ctx : Ctx V J) :
    List (Destination V) :=
  M.rank resource destinations ctx

/-- The function `find_best_match(resource, destinations, context)`: filter the
destination values by `resource.matches`, rank the matches, and return
`rankings[0] if rankings else None`. -/
def find_best_match (M : MapperCfg V J) (resource : Resource V)
    (destinations : PyDict (Destination V)) (ctx : Ctx V J) :
    Option (Destination V) :=
  let ms := (pyValues destinations).filter
    (fun dest => M.matchesb resource dest ctx)
  let rankings := rank M resource ms ctx
  rankings.head?

/-- The function `evaluate_resource_requirements(resources, context)`: for each
candidate in order, update the context's `resource` and `self` keys to
that candidate (the update happens even when the candidate is `None`),
then call its `evaluate_resource_requirements` capability — an
`AttributeError` (modelled as `Except.error ()`) when the candidate is
`None`. Returns the evaluated list with the final context, paired with
the trace of context states after each update. -/
def evaluate_resource_requirements (M : MapperCfg V J) :
    List (Option (Resource V)) → Ctx V J →
      Except Unit (List (Resource V) × Ctx V J) × List (Ctx V J)
  | [], ctx => (.ok ([], ctx), [])
  | r? :: rest, ctx =>
    let c2 := pyUpdate ctx [("resource", .vRes r?), ("self", .vRes r?)]
    match r? with
    | none => (.error (), [c2])
    | some resource =>
      let ev := M.evalReq resource c2
      match evaluate_resource_requirements M rest c2 with
      | (.ok (evs, cf), tr) => (.ok (ev :: evs, cf), c2 :: tr)
      | (.error e, tr) => (.error e, c2 :: tr)

/-- The failure modes of `map_to_destination`: evaluating a `None`
candidate (`AttributeError`), combining an empty list (`IndexError` —
unreachable, the candidate list is never empty), and the
`JobMappingException` carrying its message. -/
inductive MapErr where
  | attrError
  | indexError
  | mapping (msg : String)
  deriving DecidableEq

/-- Step 2 of `map_to_destination`: the initial evaluation context
(`mapper: self` is modelled as the token `vMapper`). -/
def mkContext (app : App V) (tool : Tool) (user : Option User) (job : J) :
    Ctx V J :=
  [("app", .vApp app), ("tool", .vTool tool), ("user", .vUser user),
   ("job", .vJob job), ("mapper", .vMapper)]

/-- The function `map_to_destination(app, tool, user, job)`: find the candidate
rules, build the context, evaluate each candidate, combine, re-evaluate
the combined resource's remaining expressions, select the best
destination, and materialize it (fetch the authoritative definition via
`app.job_config.get_destination`, extend its env list with the
evaluated resource's env entries, and update its params dict with the
evaluated resource's params, `or {}`); raise `JobMappingException`
naming the evaluated resource's id when no destination matched. -/
def map_to_destination (M : MapperCfg V J) (app : App V) (tool : Tool)
    (user : Option User) (job : J) : Except MapErr (Destination V) :=
  let resource_list := find_matching_resources M tool user
  let context := mkContext app tool user job
  match (evaluate_resource_requirements M resource_list context).1 with
  | .error _ => .error .attrError
  | .ok (evaluated_resources, ctx1) =>
    match combine_resources M evaluated_resources with
    | none => .error .indexError
    | some combined_resource =>
      let ctx2 := pyUpdate ctx1
        [("resource", .vRes (some combined_resource)),
         ("self", .vRes (some combined_resource))]
      let evaluated := M.evalExpr combined_resource ctx2
      let ctx3 := pyUpdate ctx2
        [("resource", .vRes (some evaluated)),
         ("self", .vRes (some evaluated))]
      match find_best_match M evaluated M.destinations ctx3 with
      | some destination =>
        let d := app.getDest destination.id
        .ok { d with
              env := d.env ++ evaluated.env.map (fun kv => ⟨kv.1, kv.2⟩),
              params := pyUpdate d.params (evaluated.params.getD []) }
      | none =>
        .error (.mapping
          ("No destinations are available to fulfill request: "
            ++ evaluated.id))

/-- The pipeline prefix of `map_to_destination` up to (but excluding)
destination selection: the fully evaluated resource and the context in
which `find_best_match` is called, or `none` when an earlier step
fails. -/
def pipeline_stage (M : MapperCfg V J) (app : App V) (tool : Tool)
    (user : Option User) (job : J) : Option (Resource V × Ctx V J) :=
  let resource_list := find_matching_resources M tool user
  let context := mkContext app tool user job
  match (evaluate_resource_requirements M resource_list context).1 with
  | .error _ => none
  | .ok (evaluated_resources, ctx1) =>
    match combine_resources M evaluated_resources with
    | none => none
    | some combined_resource =>
      let ctx2 := pyUpdate ctx1
        [("resource", .vRes (some combined_resource)),
         ("self", .vRes (some combined_resource))]
      let evaluated := M.evalExpr combined_resource ctx2
      let ctx3 := pyUpdate ctx2
        [("resource", .vRes (some evaluated)),
         ("self", .vRes (some evaluated))]
      some (evaluated, ctx3)

/-- Every context state a `map_to_destination` call goes through: the
initial context, then the state after each `context.update` performed
while evaluating candidates, then (when the pipeline reaches them) the
states after rebinding to the combined and to the final evaluated
resource. -/
def map_to_destination_ctxs (M : MapperCfg V J) (app : App V) (tool : Tool)
    (user : Option User) (job : J) : List (Ctx V J) :=
  let resource_list := find_matching_resources M tool user
  let context := mkContext app tool user job
  let p := evaluate_resource_requirements M resource_list context
  match p.1 with
  | .error _ => context :: p.2
  | .ok (evaluated_resources, ctx1) =>
    match combine_resources M evaluated_resources with
    | none => context :: p.2
    | some combined_resource =>
      let ctx2 := pyUpdate ctx1
        [("resource", .vRes (some combined_resource)),
         ("self", .vRes (some combined_resource))]
      let evaluated := M.evalExpr combined_resource ctx2
      let ctx3 := pyUpdate ctx2
        [("resource", .vRes (some evaluated)),
         ("self", .vRes (some evaluated))]
      context :: (p.2 ++ [ctx2, ctx3])

/-- A minimal concrete mapper configuration over trivial value and job
types: empty tables, no `default_inherits`, a never-matching pattern
predicate and identity-like capabilities. -/
def emptyCfg : MapperCfg Unit Unit where
  tools := []
  users := []
  roles := []
  destinations := []
  default_inherits := none
  rmatch := fun _ _ => false
  evalReq := fun r _ => r
  combine := fun a _ => a
  evalExpr := fun r _ => r
  matchesb := fun _ _ _ => false
  rank := fun _ l _ => l

/-- A concrete resource rule with id `r1`. -/
def res1 : Resource Unit := ⟨"r1", [], none⟩

/-- A concrete resource rule with id `r2`. -/
def res2 : Resource Unit := ⟨"r2", [], none⟩

/-- A concrete resource rule with id `r3`. -/
def res3 : Resource Unit := ⟨"r3", [], none⟩

/-- The mapper configuration of the role-precedence scenario: a tool
rule for `tool1` and rules for two role names. -/
def roleCfg : MapperCfg Unit Unit where
  tools := [("tool1", res1)]
  users := []
  roles := [("role_with_rule", res2), ("role_with_rule_2", res3)]
  destinations := []
  default_inherits := none
  rmatch := fun _ _ => false
  evalReq := fun r _ => r
  combine := fun a _ => a
  evalExpr := fun r _ => r
  matchesb := fun _ _ _ => false
  rank := fun _ l _ => l

/-- The submitter of the role-precedence scenario: a deleted role, a
role with no rule, and two roles with rules, in that order. -/
def user1 : User :=
  ⟨"alice@example.org",
    [⟨"deleted_role", true⟩, ⟨"role_no_rule", false⟩,
     ⟨"role_with_rule", false⟩, ⟨"role_with_rule_2", false⟩]⟩

/-- A concrete destination with one pre-existing env entry and two
pre-existing params. -/
def dest1 : Destination Unit := ⟨"d1", [⟨"E0", ()⟩], [("p0", ()), ("p1", ())]⟩

/-- A concrete app whose destination registry always returns `dest1`. -/
def app1 : App Unit := ⟨fun _ => dest1⟩

/-- The context `find_best_match` receives in the `roleCfg` run used by
the C5 witness. -/
def ctxW : Ctx Unit Unit :=
  [("app", .vApp app1), ("tool", .vTool ⟨"tool1"⟩), ("user", .vUser none),
   ("job", .vJob ()), ("mapper", .vMapper),
   ("resource", .vRes (some res1)), ("self", .vRes (some res1))]

/-- The tool rule of the C8 witness scenario: one env entry `E1` and
one param `p1` colliding with a pre-existing destination param. -/
def resP : Resource Unit := ⟨"rp", [("E1", ())], some [("p1", ())]⟩

/-- The mapper configuration of the C8 witness scenario: a tool rule,
one destination, an always-true match and the identity ranking. -/
def destCfg : MapperCfg Unit Unit where
  tools := [("tool1", resP)]
  users := []
  roles := []
  destinations := [("d1", dest1)]
  default_inherits := none
  rmatch := fun _ _ => false
  evalReq := fun r _ => r
  combine := fun a _ => a
  evalExpr := fun r _ => r
  matchesb := fun _ _ _ => true
  rank := fun _ l _ => l

/-- The context `find_best_match` receives in the `destCfg` run. -/
def ctxW8 : Ctx Unit Unit :=
  [("app", .vApp app1), ("tool", .vTool ⟨"tool1"⟩), ("user", .vUser none),
   ("job", .vJob ()), ("mapper", .vMapper),
   ("resource", .vRes (some resP)), ("self", .vRes (some resP))]

/-- The mapper configuration of the C9 witness scenario: like
`destCfg` but the tool rule has no params map. -/
def destCfg9 : MapperCfg Unit Unit where
  tools := [("tool1", res1)]
  users := []
  roles := []
  destinations := [("d1", dest1)]
  default_inherits := none
  rmatch := fun _ _ => false
  evalReq := fun r _ => r
  combine := fun a _ => a
  evalExpr := fun r _ => r
  matchesb := fun _ _ _ => true
  rank := fun _ l _ => l

/-- The context `find_best_match` receives in the `destCfg9` run. -/
def ctxW9 : Ctx Unit Unit :=
  [("app", .vApp app1), ("tool", .vTool ⟨"tool1"⟩), ("user", .vUser none),
   ("job", .vJob ()), ("mapper", .vMapper),
   ("resource", .vRes (some res1)), ("self", .vRes (some res1))]

/-- The frame property of claim C10: the five creation-time context
entries hold their creation values. -/
def ctx_frame (app : App V) (tool : Tool) (user : Option User) (job : J)
    (c : Ctx V J) : Prop :=
  pyGet c "app" = some (.vApp app) ∧ pyGet c "tool" = some (.vTool tool)
    ∧ pyGet c "user" = some (.vUser user) ∧ pyGet c "job" = some (.vJob job)
    ∧ pyGet c "mapper" = some (.vMapper)

/-- The alias property of claim C10: the `resource` and `self` entries
are present and bound to the same value. -/
def ctx_aliased (c : Ctx V J) : Prop :=
  ∃ ro : Option (Resource V),
    pyGet c "resource" = some (.vRes ro) ∧ pyGet c "self" = some (.vRes ro)

lemma regexScan_fst (rmatch : String → String → Bool) (name : String) :
    ∀ tbl : List (String × Resource V),
      (regexScan rmatch name tbl).1 =
        (tbl.find? (fun kv => rmatch kv.1 name)).map (fun kv => kv.2) := by
  intro tbl
  induction tbl with
  | nil => rfl
  | cons kv rest ih =>
    obtain ⟨k, r⟩ := kv
    by_cases h : rmatch k name
    · simp [regexScan, h, List.find?]
    · simp [regexScan, h, List.find?, ih]

lemma pyGet_pySet_self {α : Type} (d : PyDict α) (k : String) (v : α) :
    pyGet (pySet d k v) k = some v := by
  induction d with
  | nil => simp [pySet, pyGet]
  | cons kv rest ih =>
    by_cases h : kv.1 = k
    · simp [pySet, pyGet, h]
    · simp [pySet, pyGet, h, ih]

lemma pyGet_pySet_ne {α : Type} (d : PyDict α) (k k' : String) (v : α)
    (h : k' ≠ k) : pyGet (pySet d k v) k' = pyGet d k' := by
  have h1 : ¬(k = k') := fun hh => h hh.symm
  induction d with
  | nil =>
    simp only [pySet, pyGet]
    rw [if_neg h1]
  | cons kv rest ih =>
    simp only [pySet]
    by_cases hk : kv.1 = k
    · rw [if_pos hk]
      simp only [pyGet]
      have h2 : ¬(kv.1 = k') := by rw [hk]; exact h1
      rw [if_neg h1, if_neg h2]
    · rw [if_neg hk]
      simp only [pyGet]
      by_cases hk2 : kv.1 = k'
      · rw [if_pos hk2, if_pos hk2]
      · rw [if_neg hk2, if_neg hk2, ih]

lemma pyUpdate_nil {α : Type} (d : PyDict α) : pyUpdate d [] = d := rfl

lemma pyUpdate_cons {α : Type} (d : PyDict α) (kv : String × α)
    (u : PyDict α) :
    pyUpdate d (kv :: u) = pyUpdate (pySet d kv.1 kv.2) u := rfl

lemma pyUpdate_pair {α : Type} (d : PyDict α) (k1 k2 : String) (v1 v2 : α) :
    pyUpdate d [(k1, v1), (k2, v2)] = pySet (pySet d k1 v1) k2 v2 := rfl

lemma pyGet_pyUpdate_of_not_key {α : Type} (u : PyDict α) :
    ∀ d : PyDict α, ∀ k : String, (∀ kv ∈ u, kv.1 ≠ k) →
      pyGet (pyUpdate d u) k = pyGet d k := by
  induction u with
  | nil => intro d k _; rfl
  | cons a u ih =>
    intro d k h
    rw [pyUpdate_cons, ih _ _ (fun kv hkv => h kv (List.mem_cons_of_mem a hkv))]
    exact pyGet_pySet_ne d a.1 k a.2
      (fun hh => h a (List.mem_cons_self a u) hh.symm)

lemma pyGet_pyUpdate_of_get {α : Type} (u : PyDict α) :
    ∀ d : PyDict α, ∀ k : String, ∀ v : α,
      (u.map Prod.fst).Nodup → pyGet u k = some v →
      pyGet (pyUpdate d u) k = some v := by
  induction u with
  | nil => intro d k v _ h; simp [pyGet] at h
  | cons a u ih =>
    intro d k v hnd h
    rw [List.map_cons] at hnd
    have hmem : a.1 ∉ u.map Prod.fst := (List.nodup_cons.mp hnd).1
    have htl : (u.map Prod.fst).Nodup := (List.nodup_cons.mp hnd).2
    rw [pyUpdate_cons]
    by_cases hk : a.1 = k
    · have hv : a.2 = v := by
        rw [pyGet, if_pos hk] at h
        exact Option.some.inj h
      have hrest : ∀ kv ∈ u, kv.1 ≠ k := by
        intro kv hkv he
        have hm : kv.1 ∈ u.map Prod.fst := List.mem_map_of_mem Prod.fst hkv
        rw [he, ← hk] at hm
        exact hmem hm
      rw [pyGet_pyUpdate_of_not_key u _ _ hrest, ← hv, ← hk]
      exact pyGet_pySet_self d a.1 a.2
    · rw [pyGet, if_neg hk] at h
      exact ih _ _ _ htl h

/-- C1: Pattern Index lookup resolves an identity by exact-key lookup
first, then the rule of the first table key (in table order) whose
compiled pattern matches the identity, then — when a Default Fallback
Key is configured — an exact-key lookup of that fallback key, and
otherwise returns absent; in particular an empty table with no
configured fallback yields absent. Stated as equality between the
source-derived lookup and `patternIndexResolveSpec`, written from the
claim's words. -/
theorem pattern_index_resolve_correct (M : MapperCfg V J)
    (tbl : PyDict (Resource V)) (name : String) :
    find_resource_by_id_regex M tbl name = patternIndexResolveSpec M tbl name
      ∧ (M.default_inherits = none →
          find_resource_by_id_regex M ([] : PyDict (Resource V)) name
            = none) := by
  constructor
  · unfold find_resource_by_id_regex find_resource_by_id_regexT
      patternIndexResolveSpec
    cases hg : pyGet tbl name with
    | some r => simp [hg]
    | none =>
      have hs := regexScan_fst (V := V) M.rmatch name tbl
      cases hf : tbl.find? (fun kv => M.rmatch kv.1 name) with
      | some kv => simp [hg, hs, hf]
      | none =>
        cases hd : M.default_inherits with
        | none => simp [hg, hs, hf, hd]
        | some d =>
          by_cases hde : d = "" <;> simp [hg, hs, hf, hd, hde]
  · intro h
    simp [find_resource_by_id_regex, find_resource_by_id_regexT, pyGet,
      regexScan, h]

/-- Witness for C1 at a concrete input: the empty rule table with no
fallback configured resolves to absent. -/
theorem pattern_index_resolve_correct_witness :
    find_resource_by_id_regex emptyCfg ([] : PyDict (Resource Unit)) "tool1"
      = none :=
  (pattern_index_resolve_correct emptyCfg [] "tool1").2 rfl

/-- C7: when the identity is present as an exact key, lookup returns
that key's rule and the set of keys compiled as patterns is empty (the
exact-match shortcut bypasses the regex iteration entirely). -/
theorem exact_key_shortcut (M : MapperCfg V J) (tbl : PyDict (Resource V))
    (name : String) (r : Resource V) (h : pyGet tbl name = some r) :
    find_resource_by_id_regex M tbl name = some r
      ∧ find_resource_compiled_keys M tbl name = [] := by
  unfold find_resource_by_id_regex find_resource_compiled_keys
    find_resource_by_id_regexT
  rw [h]
  exact ⟨rfl, rfl⟩

/-- Witness for C7 at a concrete input: a two-key table whose second
key is a pattern; the exact key hits and nothing is compiled. -/
theorem exact_key_shortcut_witness :
    find_resource_by_id_regex emptyCfg [("tool1", res1), ("tool.*", res2)]
        "tool1" = some res1
      ∧ find_resource_compiled_keys emptyCfg
          [("tool1", res1), ("tool.*", res2)] "tool1" = [] :=
  exact_key_shortcut emptyCfg [("tool1", res1), ("tool.*", res2)] "tool1"
    res1 (by decide)

lemma first_role_resource_first (M : MapperCfg V J) (pre post : List Role)
    (ρ : Role) (r : Resource V) (hdel : ρ.deleted = false)
    (hr : find_resource_by_id_regex M M.roles ρ.name = some r)
    (hpre : ∀ σ ∈ pre, σ.deleted = true
      ∨ find_resource_by_id_regex M M.roles σ.name = none) :
    first_role_resource M (pre ++ ρ :: post) = some r := by
  induction pre with
  | nil =>
    simp only [List.nil_append, first_role_resource, List.filter_cons,
      hdel, Bool.not_false, if_pos, List.findSome?_cons, hr]
  | cons σ pre ih =>
    have hσ := hpre σ (List.mem_cons_self σ pre)
    have htl : ∀ τ ∈ pre, τ.deleted = true
        ∨ find_resource_by_id_regex M M.roles τ.name = none :=
      fun τ hτ => hpre τ (List.mem_cons_of_mem σ hτ)
    rcases hσ with hσ | hσ
    · simpa only [List.cons_append, first_role_resource, List.filter_cons,
        hσ, Bool.not_true, Bool.false_eq_true, if_neg, ite_false]
        using ih htl
    · by_cases hd : σ.deleted
      · simpa only [List.cons_append, first_role_resource, List.filter_cons,
          hd, Bool.not_true, ite_false] using ih htl
      · have := ih htl
        simp only [first_role_resource, List.cons_append, List.filter_cons,
          hd, Bool.not_false, ite_true, List.findSome?_cons, hσ] at this ⊢
        exact this

/-- C2: the candidate list is the tool lookup result first, then (when
a submitter is present) its user rule if one resolves, then the rule of
the first non-deleted role whose name resolves — a single role rule at
most, with deleted roles skipped and later roles never consulted once
one role's rule has resolved. -/
theorem candidate_order (M : MapperCfg V J) (tool : Tool)
    (user : Option User) :
    (find_matching_resources M tool user =
        [find_resource_by_id_regex M M.tools tool.id] ++
          (match user with
           | none => ([] : List (Option (Resource V)))
           | some u =>
             (find_resource_by_id_regex M M.users u.email).toList.map some
               ++ (first_role_resource M u.roles).toList.map some))
      ∧ (∀ (u : User) (pre post : List Role) (ρ : Role) (r : Resource V),
          user = some u → u.roles = pre ++ ρ :: post → ρ.deleted = false →
          find_resource_by_id_regex M M.roles ρ.name = some r →
          (∀ σ ∈ pre, σ.deleted = true
            ∨ find_resource_by_id_regex M M.roles σ.name = none) →
          first_role_resource M u.roles = some r) := by
  constructor
  · cases user with
    | none => simp [find_matching_resources]
    | some u =>
      cases hu : find_resource_by_id_regex M M.users u.email with
      | none =>
        cases hr : first_role_resource M u.roles with
        | none => simp [find_matching_resources, hu, hr]
        | some r => simp [find_matching_resources, hu, hr]
      | some ur =>
        cases hr : first_role_resource M u.roles with
        | none => simp [find_matching_resources, hu, hr]
        | some r => simp [find_matching_resources, hu, hr]
  · intro u pre post ρ r hu hroles hdel hρ hpre
    rw [hroles]
    exact first_role_resource_first M pre post ρ r hdel hρ hpre

/-- Witness for C2 at a concrete input: with roles
`[deleted, no-rule, with-rule, with-rule-2]` exactly the rule of
`role_with_rule` is selected. -/
theorem candidate_order_witness :
    first_role_resource roleCfg user1.roles = some res2 :=
  (candidate_order roleCfg ⟨"tool1"⟩ (some user1)).2 user1
    [⟨"deleted_role", true⟩, ⟨"role_no_rule", false⟩]
    [⟨"role_with_rule_2", false⟩] ⟨"role_with_rule", false⟩ res2
    rfl rfl rfl (by decide) (by decide)

/-- Counterexample to C3: with an empty tool table, no fallback and no
submitter, the returned candidate list is `[None]` — the absent tool
lookup result is included, not omitted, so it is not the case that no
element of the list is the absent value. -/
theorem candidate_absent_not_omitted :
    find_matching_resources emptyCfg ⟨"tool1"⟩ none
        = [(none : Option (Resource Unit))]
      ∧ ¬(∀ x ∈ find_matching_resources emptyCfg ⟨"tool1"⟩ none,
            x ≠ none) := by
  constructor
  · decide
  · decide

/-- C3 as amended: the tool lookup result is always the first element
of the candidate list — included even when absent — so the list is
never empty, and only that first slot can be the absent value: every
element after it is non-absent. -/
theorem candidate_tool_slot (M : MapperCfg V J) (tool : Tool)
    (user : Option User) :
    (find_matching_resources M tool user).head?
        = some (find_resource_by_id_regex M M.tools tool.id)
      ∧ find_matching_resources M tool user ≠ []
      ∧ (∀ x ∈ (find_matching_resources M tool user).drop 1, x ≠ none) := by
  cases user with
  | none => simp [find_matching_resources]
  | some u =>
    cases hu : find_resource_by_id_regex M M.users u.email with
    | none =>
      cases hr : first_role_resource M u.roles with
      | none => simp [find_matching_resources, hu, hr]
      | some r => simp [find_matching_resources, hu, hr]
    | some ur =>
      cases hr : first_role_resource M u.roles with
      | none => simp [find_matching_resources, hu, hr]
      | some r => simp [find_matching_resources, hu, hr]

/-- Witness for the amended C3 at a concrete input: the head slot holds
the (resolved) tool rule. -/
theorem candidate_tool_slot_witness :
    (find_matching_resources roleCfg ⟨"tool1"⟩ none).head?
      = some (some res1) := by
  have h := (candidate_tool_slot roleCfg ⟨"tool1"⟩ none).1
  rw [h]
  decide

/-- C4: the Combiner fails exactly on the empty list (`resources[0]`
raises there, the spec's ResolutionError, modelled as `none`); any
non-empty list is folded left-to-right through `combine` starting from
its head, so a singleton yields its element unchanged. -/
theorem combiner_spec (M : MapperCfg V J) (l : List (Resource V)) :
    (combine_resources M l = none ↔ l = [])
      ∧ (∀ (x : Resource V) (xs : List (Resource V)), l = x :: xs →
          combine_resources M l = some (xs.foldl M.combine x))
      ∧ (∀ x : Resource V, combine_resources M [x] = some x) := by
  refine ⟨?_, ?_, fun x => rfl⟩
  · cases l <;> simp [combine_resources]
  · intro x xs h
    rw [h]
    rfl

/-- Witness for C4 at a concrete input: a singleton list combines to
its element. -/
theorem combiner_spec_witness :
    combine_resources emptyCfg [res1] = some res1 :=
  (combiner_spec emptyCfg [res1]).2.1 res1 [] rfl

/-- C6: destination selection filters the destination-table values to
those the evaluated resource `matches`, ranks the filtered list through
the resource's `rank_destinations` capability and returns the
first-ranked destination; provided the ranking capability returns a
non-empty ranking exactly on non-empty input (it is specified as a
best-first total ordering of the matches), the result is absent exactly
when the filtered set is empty. -/
theorem best_match_spec (M : MapperCfg V J) (resource : Resource V)
    (dests : PyDict (Destination V)) (ctx : Ctx V J)
    (hrank : ∀ (l : List (Destination V)) (c : Ctx V J),
      M.rank resource l c = [] ↔ l = []) :
    find_best_match M resource dests ctx
        = (M.rank resource ((pyValues dests).filter
            (fun d => M.matchesb resource d ctx)) ctx).head?
      ∧ (find_best_match M resource dests ctx = none ↔
          (pyValues dests).filter (fun d => M.matchesb resource d ctx)
            = []) := by
  refine ⟨rfl, ?_⟩
  show (M.rank resource ((pyValues dests).filter
      (fun d => M.matchesb resource d ctx)) ctx).head? = none ↔ _
  cases hr : M.rank resource ((pyValues dests).filter
      (fun d => M.matchesb resource d ctx)) ctx with
  | nil =>
    simp only [List.head?_nil, true_iff]
    exact (hrank _ _).mp hr
  | cons a l =>
    simp only [List.head?_cons]
    refine ⟨fun hx => absurd hx (by simp), fun he => ?_⟩
    rw [he, (hrank [] ctx).mpr rfl] at hr
    exact List.noConfusion hr

/-- Witness for C6 at a concrete input: the identity ranking satisfies
the ranking hypothesis, and with no destinations the selection is
absent and the filtered set is empty. -/
theorem best_match_spec_witness :
    find_best_match emptyCfg res1 [] [] = none :=
  ((best_match_spec emptyCfg res1 [] [] (fun _ _ => Iff.rfl)).2).mpr rfl

lemma map_to_destination_of_none (M : MapperCfg V J) (app : App V)
    (tool : Tool) (user : Option User) (job : J) (ev : Resource V)
    (ctx3 : Ctx V J)
    (h : pipeline_stage M app tool user job = some (ev, ctx3))
    (hfb : find_best_match M ev M.destinations ctx3 = none) :
    map_to_destination M app tool user job
      = .error (.mapping
          ("No destinations are available to fulfill request: "
            ++ ev.id)) := by
  unfold pipeline_stage at h
  unfold map_to_destination
  cases he : (evaluate_resource_requirements M
      (find_matching_resources M tool user)
      (mkContext app tool user job)).1 with
  | error e =>
    simp only [he] at h
    exact Option.noConfusion h
  | ok p =>
    obtain ⟨evs, ctx1⟩ := p
    simp only [he] at h ⊢
    cases hc : combine_resources M evs with
    | none =>
      simp only [hc] at h
      exact Option.noConfusion h
    | some combined =>
      simp only [hc] at h ⊢
      simp only [Option.some.injEq, Prod.mk.injEq] at h
      obtain ⟨h1, h2⟩ := h
      rw [h2, h1, hfb]

lemma map_to_destination_of_some (M : MapperCfg V J) (app : App V)
    (tool : Tool) (user : Option User) (job : J) (ev : Resource V)
    (ctx3 : Ctx V J) (d0 : Destination V)
    (h : pipeline_stage M app tool user job = some (ev, ctx3))
    (hfb : find_best_match M ev M.destinations ctx3 = some d0) :
    map_to_destination M app tool user job
      = .ok ⟨(app.getDest d0.id).id,
             (app.getDest d0.id).env
               ++ ev.env.map (fun kv => ⟨kv.1, kv.2⟩),
             pyUpdate (app.getDest d0.id).params (ev.params.getD [])⟩ := by
  unfold pipeline_stage at h
  unfold map_to_destination
  cases he : (evaluate_resource_requirements M
      (find_matching_resources M tool user)
      (mkContext app tool user job)).1 with
  | error e =>
    simp only [he] at h
    exact Option.noConfusion h
  | ok p =>
    obtain ⟨evs, ctx1⟩ := p
    simp only [he] at h ⊢
    cases hc : combine_resources M evs with
    | none =>
      simp only [hc] at h
      exact Option.noConfusion h
    | some combined =>
      simp only [hc] at h ⊢
      simp only [Option.some.injEq, Prod.mk.injEq] at h
      obtain ⟨h1, h2⟩ := h
      rw [h2, h1, hfb]

/-- C5: whenever the pipeline reaches destination selection with the
fully evaluated resource `ev`, `map_to_destination` raises the
`JobMappingException` whose message names `ev.id` exactly when
selection yields no destination, and returns a destination otherwise. -/
theorem mapping_error_iff (M : MapperCfg V J) (app : App V) (tool : Tool)
    (user : Option User) (job : J) (ev : Resource V) (ctx3 : Ctx V J)
    (h : pipeline_stage M app tool user job = some (ev, ctx3)) :
    (map_to_destination M app tool user job
        = .error (.mapping
            ("No destinations are available to fulfill request: " ++ ev.id))
      ↔ find_best_match M ev M.destinations ctx3 = none)
      ∧ (∀ d0 : Destination V,
          find_best_match M ev M.destinations ctx3 = some d0 →
          ∃ dF, map_to_destination M app tool user job = .ok dF) := by
  constructor
  · constructor
    · intro hm
      cases hfb : find_best_match M ev M.destinations ctx3 with
      | none => rfl
      | some d0 =>
        rw [map_to_destination_of_some M app tool user job ev ctx3 d0 h hfb]
          at hm
        exact Except.noConfusion hm
    · intro hfb
      exact map_to_destination_of_none M app tool user job ev ctx3 h hfb
  · intro d0 hfb
    exact ⟨_, map_to_destination_of_some M app tool user job ev ctx3 d0 h hfb⟩

/-- Witness for C5 at a concrete input: with an empty destination table
the call fails with the message naming the evaluated resource's id. -/
theorem mapping_error_iff_witness :
    map_to_destination roleCfg app1 ⟨"tool1"⟩ none ()
      = .error (.mapping
          "No destinations are available to fulfill request: r1") := by
  have h := (mapping_error_iff roleCfg app1 ⟨"tool1"⟩ none () res1 ctxW rfl).1
  exact h.mpr rfl

/-- C8: on the success path the returned destination is the registry
destination for the selected id, with the evaluated resource's env
items appended as name/value entries after the pre-existing env list,
and the resource's params merged into the destination's params —
resource params override on key collision, keys absent from the
resource params keep their pre-existing values. -/
theorem materialization_spec (M : MapperCfg V J) (app : App V) (tool : Tool)
    (user : Option User) (job : J) (ev : Resource V) (ctx3 : Ctx V J)
    (d0 : Destination V)
    (h : pipeline_stage M app tool user job = some (ev, ctx3))
    (hfb : find_best_match M ev M.destinations ctx3 = some d0)
    (hnd : ((ev.params.getD []).map Prod.fst).Nodup) :
    ∃ dF, map_to_destination M app tool user job = .ok dF
      ∧ dF.env = (app.getDest d0.id).env
          ++ ev.env.map (fun kv => ⟨kv.1, kv.2⟩)
      ∧ (∀ (k : String) (v : V), pyGet (ev.params.getD []) k = some v →
          pyGet dF.params k = some v)
      ∧ (∀ k : String, (∀ kv ∈ ev.params.getD [], kv.1 ≠ k) →
          pyGet dF.params k = pyGet (app.getDest d0.id).params k) := by
  refine ⟨_, map_to_destination_of_some M app tool user job ev ctx3 d0 h hfb,
    rfl, ?_, ?_⟩
  · intro k v hk
    exact pyGet_pyUpdate_of_get _ _ _ _ hnd hk
  · intro k hk
    exact pyGet_pyUpdate_of_not_key _ _ _ hk

/-- Witness for C8 at a concrete input: env entries are appended after
the pre-existing ones, the colliding param `p1` takes the resource's
value, and the non-colliding param `p0` is retained. -/
theorem materialization_spec_witness :
    ∃ dF, map_to_destination destCfg app1 ⟨"tool1"⟩ none () = .ok dF
      ∧ dF.env = dest1.env ++ [⟨"E1", ()⟩]
      ∧ pyGet dF.params "p1" = some ()
      ∧ pyGet dF.params "p0" = some () := by
  obtain ⟨dF, hok, henv, hover, hkeep⟩ :=
    materialization_spec destCfg app1 ⟨"tool1"⟩ none () resP ctxW8 dest1
      rfl rfl (by decide)
  refine ⟨dF, hok, ?_, ?_, ?_⟩
  · rw [henv]; decide
  · exact hover "p1" () rfl
  · rw [hkeep "p0" (by decide)]; decide

/-- C9: when the evaluated resource's params map is absent (`None`),
the `or {}` guard makes the merge a no-op and the selected
destination's params are returned unchanged. -/
theorem params_none_preserved (M : MapperCfg V J) (app : App V)
    (tool : Tool) (user : Option User) (job : J) (ev : Resource V)
    (ctx3 : Ctx V J) (d0 : Destination V)
    (h : pipeline_stage M app tool user job = some (ev, ctx3))
    (hp : ev.params = none)
    (hfb : find_best_match M ev M.destinations ctx3 = some d0) :
    ∃ dF, map_to_destination M app tool user job = .ok dF
      ∧ dF.params = (app.getDest d0.id).params := by
  refine ⟨_, map_to_destination_of_some M app tool user job ev ctx3 d0 h hfb,
    ?_⟩
  rw [hp]
  rfl

/-- Witness for C9 at a concrete input: with an absent params map the
destination's params come through unchanged. -/
theorem params_none_preserved_witness :
    ∃ dF, map_to_destination destCfg9 app1 ⟨"tool1"⟩ none () = .ok dF
      ∧ dF.params = dest1.params := by
  obtain ⟨dF, hok, hparams⟩ :=
    params_none_preserved destCfg9 app1 ⟨"tool1"⟩ none () res1 ctxW9 dest1
      rfl rfl rfl
  exact ⟨dF, hok, hparams⟩

lemma pyGet_update_pair_ne {α : Type} (d : PyDict α) (k1 k2 k : String)
    (v1 v2 : α) (h1 : k ≠ k1) (h2 : k ≠ k2) :
    pyGet (pyUpdate d [(k1, v1), (k2, v2)]) k = pyGet d k := by
  rw [pyUpdate_pair, pyGet_pySet_ne _ _ _ _ h2, pyGet_pySet_ne _ _ _ _ h1]

lemma pyGet_update_pair_fst {α : Type} (d : PyDict α) (k1 k2 : String)
    (v1 v2 : α) (hne : k1 ≠ k2) :
    pyGet (pyUpdate d [(k1, v1), (k2, v2)]) k1 = some v1 := by
  rw [pyUpdate_pair, pyGet_pySet_ne _ _ _ _ hne, pyGet_pySet_self]

lemma pyGet_update_pair_snd {α : Type} (d : PyDict α) (k1 k2 : String)
    (v1 v2 : α) :
    pyGet (pyUpdate d [(k1, v1), (k2, v2)]) k2 = some v2 := by
  rw [pyUpdate_pair, pyGet_pySet_self]

lemma ctx_frame_mk (app : App V) (tool : Tool) (user : Option User)
    (job : J) : ctx_frame app tool user job (mkContext app tool user job) :=
  ⟨rfl, rfl, rfl, rfl, rfl⟩

lemma ctx_frame_update (app : App V) (tool : Tool) (user : Option User)
    (job : J) (c : Ctx V J) (x : Option (Resource V))
    (h : ctx_frame app tool user job c) :
    ctx_frame app tool user job
      (pyUpdate c [("resource", .vRes x), ("self", .vRes x)]) := by
  obtain ⟨h1, h2, h3, h4, h5⟩ := h
  exact ⟨by rw [pyGet_update_pair_ne _ _ _ _ _ _ (by decide) (by decide), h1],
    by rw [pyGet_update_pair_ne _ _ _ _ _ _ (by decide) (by decide), h2],
    by rw [pyGet_update_pair_ne _ _ _ _ _ _ (by decide) (by decide), h3],
    by rw [pyGet_update_pair_ne _ _ _ _ _ _ (by decide) (by decide), h4],
    by rw [pyGet_update_pair_ne _ _ _ _ _ _ (by decide) (by decide), h5]⟩

lemma ctx_aliased_update (c : Ctx V J) (x : Option (Resource V)) :
    ctx_aliased (pyUpdate c [("resource", .vRes x), ("self", .vRes x)]) :=
  ⟨x, by rw [pyGet_update_pair_fst _ _ _ _ _ (by decide)],
    by rw [pyGet_update_pair_snd]⟩

lemma eval_rr_nil (M : MapperCfg V J) (ctx : Ctx V J) :
    evaluate_resource_requirements M [] ctx = (.ok ([], ctx), []) := rfl

lemma eval_rr_cons_none (M : MapperCfg V J)
    (rest : List (Option (Resource V))) (ctx : Ctx V J) :
    evaluate_resource_requirements M (none :: rest) ctx =
      (.error (),
       [pyUpdate ctx [("resource", .vRes none), ("self", .vRes none)]]) :=
  rfl

lemma eval_rr_cons_some (M : MapperCfg V J) (r : Resource V)
    (rest : List (Option (Resource V))) (ctx : Ctx V J) :
    evaluate_resource_requirements M (some r :: rest) ctx =
      (let c2 := pyUpdate ctx
        [("resource", .vRes (some r)), ("self", .vRes (some r))]
       match evaluate_resource_requirements M rest c2 with
       | (.ok (evs, cf), tr) => (.ok (M.evalReq r c2 :: evs, cf), c2 :: tr)
       | (.error e, tr) => (.error e, c2 :: tr)) := rfl

lemma eval_ctx_props (M : MapperCfg V J) (app : App V) (tool : Tool)
    (user : Option User) (job : J) :
    ∀ (rl : List (Option (Resource V))) (ctx : Ctx V J)
      (res : Except Unit (List (Resource V) × Ctx V J))
      (tr : List (Ctx V J)),
      ctx_frame app tool user job ctx →
      evaluate_resource_requirements M rl ctx = (res, tr) →
      (∀ c ∈ tr, ctx_frame app tool user job c ∧ ctx_aliased c)
        ∧ (∀ evs cf, res = .ok (evs, cf) →
            ctx_frame app tool user job cf) := by
  intro rl
  induction rl with
  | nil =>
    intro ctx res tr hf heq
    rw [eval_rr_nil] at heq
    injection heq with h1 h2
    subst h1
    subst h2
    refine ⟨by simp, ?_⟩
    intro evs cf hok
    injection hok with h3
    injection h3 with h4 h5
    rw [← h5]
    exact hf
  | cons r? rest ih =>
    intro ctx res tr hf heq
    have hf2 := ctx_frame_update app tool user job ctx r? hf
    have ha2 := ctx_aliased_update (V := V) (J := J) ctx r?
    cases r? with
    | none =>
      rw [eval_rr_cons_none] at heq
      injection heq with h1 h2
      subst h1
      subst h2
      refine ⟨?_, ?_⟩
      · intro c hc
        rw [List.mem_singleton] at hc
        subst hc
        exact ⟨hf2, ha2⟩
      · intro evs cf hok
        exact Except.noConfusion hok
    | some r =>
      rw [eval_rr_cons_some] at heq
      simp only at heq
      rcases hrec : evaluate_resource_requirements M rest
        (pyUpdate ctx
          [("resource", .vRes (some r)), ("self", .vRes (some r))]) with
        ⟨res0, tr0⟩
      rw [hrec] at heq
      have ihh := ih _ res0 tr0 hf2 hrec
      cases res0 with
      | ok p =>
        obtain ⟨evs0, cf0⟩ := p
        simp only at heq
        injection heq with h1 h2
        subst h1
        subst h2
        refine ⟨?_, ?_⟩
        · intro c hc
          rcases List.mem_cons.mp hc with rfl | hc0
          · exact ⟨hf2, ha2⟩
          · exact ihh.1 c hc0
        · intro evs cf hok
          injection hok with h3
          injection h3 with h4 h5
          rw [← h5]
          exact ihh.2 evs0 cf0 rfl
      | error e =>
        simp only at heq
        injection heq with h1 h2
        subst h1
        subst h2
        refine ⟨?_, ?_⟩
        · intro c hc
          rcases List.mem_cons.mp hc with rfl | hc0
          · exact ⟨hf2, ha2⟩
          · exact ihh.1 c hc0
        · intro evs cf hok
          exact Except.noConfusion hok

lemma getLast?_cons_append_pair {α : Type} (x a b : α) (l : List α) :
    (x :: (l ++ [a, b])).getLast? = some b := by
  rw [show x :: (l ++ [a, b]) = (x :: (l ++ [a])) ++ [b] from by simp,
    List.getLast?_concat]

lemma map_ctxs_shape (M : MapperCfg V J) (app : App V) (tool : Tool)
    (user : Option User) (job : J) :
    ∃ rest, map_to_destination_ctxs M app tool user job
        = mkContext app tool user job :: rest
      ∧ (∀ c ∈ rest, ctx_frame app tool user job c ∧ ctx_aliased c)
      ∧ (∀ (ev : Resource V) (ctx3 : Ctx V J),
          pipeline_stage M app tool user job = some (ev, ctx3) →
          (map_to_destination_ctxs M app tool user job).getLast?
              = some ctx3
            ∧ pyGet ctx3 "resource" = some (.vRes (some ev))
            ∧ pyGet ctx3 "self" = some (.vRes (some ev))) := by
  rcases hrec : evaluate_resource_requirements M
    (find_matching_resources M tool user)
    (mkContext app tool user job) with ⟨res, tr⟩
  have hp := eval_ctx_props M app tool user job _ _ res tr
    (ctx_frame_mk app tool user job) hrec
  unfold map_to_destination_ctxs pipeline_stage
  simp only [hrec]
  cases res with
  | error e =>
    refine ⟨tr, rfl, fun c hc => hp.1 c hc, ?_⟩
    intro ev ctx3 hps
    exact Option.noConfusion hps
  | ok q =>
    obtain ⟨evs, ctx1⟩ := q
    simp only
    cases hcomb : combine_resources M evs with
    | none =>
      refine ⟨tr, rfl, fun c hc => hp.1 c hc, ?_⟩
      intro ev ctx3 hps
      exact Option.noConfusion hps
    | some combined =>
      have hfc1 : ctx_frame app tool user job ctx1 := hp.2 evs ctx1 rfl
      have hfc2 := ctx_frame_update app tool user job ctx1 (some combined)
        hfc1
      have hac2 := ctx_aliased_update (J := J) ctx1 (some combined)
      refine ⟨_, rfl, ?_, ?_⟩
      · intro c hc
        rcases List.mem_append.mp hc with hc0 | hc1
        · exact hp.1 c hc0
        · rcases List.mem_cons.mp hc1 with rfl | hc2
          · exact ⟨hfc2, hac2⟩
          · rw [List.mem_singleton] at hc2
            subst hc2
            exact ⟨ctx_frame_update app tool user job _ _ hfc2,
              ctx_aliased_update _ _⟩
      · intro ev ctx3 hps
        injection hps with h1
        injection h1 with h2 h3
        subst h2
        subst h3
        refine ⟨?_, ?_, ?_⟩
        · exact getLast?_cons_append_pair _ _ _ _
        · rw [pyGet_update_pair_fst _ _ _ _ _ (by decide)]
        · rw [pyGet_update_pair_snd]

/-- C10: every context state of a `map_to_destination` call keeps the
creation-time `app`, `tool`, `user`, `job` and `mapper` entries at
their creation values; every state after an update binds `resource`
and `self` to one and the same value; and when the pipeline reaches
selection, the final context state is the one selection receives, with
both aliases bound to the final evaluated resource. -/
theorem context_discipline (M : MapperCfg V J) (app : App V) (tool : Tool)
    (user : Option User) (job : J) :
    (∀ c ∈ map_to_destination_ctxs M app tool user job,
        ctx_frame app tool user job c)
      ∧ (∀ c ∈ (map_to_destination_ctxs M app tool user job).drop 1,
          ctx_aliased c)
      ∧ (∀ (ev : Resource V) (ctx3 : Ctx V J),
          pipeline_stage M app tool user job = some (ev, ctx3) →
          (map_to_destination_ctxs M app tool user job).getLast?
              = some ctx3
            ∧ pyGet ctx3 "resource" = some (.vRes (some ev))
            ∧ pyGet ctx3 "self" = some (.vRes (some ev))) := by
  obtain ⟨rest, hsh, hrest, hlast⟩ := map_ctxs_shape M app tool user job
  refine ⟨?_, ?_, hlast⟩
  · intro c hc
    rw [hsh] at hc
    rcases List.mem_cons.mp hc with rfl | hc0
    · exact ctx_frame_mk app tool user job
    · exact (hrest c hc0).1
  · intro c hc
    rw [hsh] at hc
    simp only [List.drop_succ_cons, List.drop_zero] at hc
    exact (hrest c hc).2

/-- Witness for C10 at a concrete input: in the `destCfg` run the
selection context binds `resource` and `self` to the same final
evaluated resource. -/
theorem context_discipline_witness :
    pyGet ctxW8 "resource" = some (.vRes (some resP))
      ∧ pyGet ctxW8 "self" = some (.vRes (some resP)) := by
  have h := (context_discipline destCfg app1 ⟨"tool1"⟩ none ()).2.2 resP
    ctxW8 rfl
  exact ⟨h.2.1, h.2.2⟩

end Vortex
